import Mathlib

/-!
Verification of the s3-index repository core: the SQLite-backed index store
(`src/s3_index/db/operations.py`) and the S3 listing source
(`src/s3_index/s3/operations.py`), shallowly embedded in Lean.

The database table `s3_keys` is modelled as a list of rows in insertion
order (the `id INTEGER PRIMARY KEY` surrogate is the list position and is
irrelevant to every contract).  A database file that may not exist yet is
an `Option Store`; `setup_database` embeds `CREATE TABLE IF NOT EXISTS`.
SQLite's `UNIQUE(bucket, key)` constraint is embedded in `insertRow`, which
fails exactly when the identity is already present.  The engine's bound
parameter ceiling (`SQLITE_MAX_VARIABLE_NUMBER`, default 32766 for the
SQLite versions bundled with the Python versions this code targets) is
embedded in `get_existing_keys`, which builds one query with two parameters
per candidate pair.  SQLite `LIKE` semantics (ASCII-case-insensitive, with
`%` and `_` wildcards, no ESCAPE clause) are embedded in `likeMatch`.
-/

namespace S3Index

instance {ε α : Type} [DecidableEq ε] [DecidableEq α] : DecidableEq (Except ε α)
  | .error e, .error f =>
    if h : e = f then .isTrue (by rw [h]) else .isFalse (by simp [h])
  | .error _, .ok _ => .isFalse (by simp)
  | .ok _, .error _ => .isFalse (by simp)
  | .ok a, .ok b =>
    if h : a = b then .isTrue (by rw [h]) else .isFalse (by simp [h])

/-- A row of the `s3_keys` table, and equally an object descriptor produced
by the listing source (`{"bucket": ..., "key": ..., "last_modified": ...}`). -/
structure KeyInfo where
  bucket : String
  key : String
  last_modified : String
deriving DecidableEq, Repr

/-- The (bucket, key) natural key. -/
abbrev Identity := String × String

/-- The rows of the `s3_keys` table, in insertion (surrogate-id) order. -/
abbrev Store := List KeyInfo

/-- The (bucket, key) identity of a row / descriptor. -/
def identity (k : KeyInfo) : Identity := (k.bucket, k.key)

/-- `setup_database`: `CREATE TABLE IF NOT EXISTS` — a missing database file
becomes an empty table, an existing one is left untouched. -/
def setup_database (db : Option Store) : Store := db.getD []

/-- SQLite's default bound-parameter ceiling (`SQLITE_MAX_VARIABLE_NUMBER`),
32766 since SQLite 3.32. -/
def SQLITE_MAX_VARIABLE_NUMBER : Nat := 32766

/-- `get_existing_keys`: empty input short-circuits to the empty set;
otherwise one SQL query `SELECT bucket, key FROM s3_keys WHERE (bucket, key)
IN ((?,?),...)` is issued with `2 * len(keys)` bound parameters — the engine
rejects it when that exceeds the parameter ceiling; otherwise it returns the
stored identities that occur among the input identities. -/
def get_existing_keys (st : Store) (keys : List KeyInfo) :
    Except String (List Identity) :=
  if keys = [] then .ok []
  else if SQLITE_MAX_VARIABLE_NUMBER < 2 * keys.length then
    .error "too many SQL variables"
  else
    .ok ((st.map identity).filter (fun p => decide (p ∈ keys.map identity)))

/-- The value `get_existing_keys` returns on its success path, as a
function: the stored identities that occur among the input identities. -/
def existingOf (db : Option Store) (keys : List KeyInfo) : List Identity :=
  ((setup_database db).map identity).filter
    (fun p => decide (p ∈ keys.map identity))

/-- One `INSERT INTO s3_keys (bucket, key, last_modified) VALUES (?, ?, ?)`:
the `UNIQUE(bucket, key)` constraint makes it fail exactly when the identity
is already present; otherwise the row is appended. -/
def insertRow (st : Store) (k : KeyInfo) : Except String Store :=
  if identity k ∈ st.map identity then
    .error "UNIQUE constraint failed: s3_keys.bucket, s3_keys.key"
  else .ok (st ++ [k])

/-- `cursor.executemany` of the insert statement inside one transaction:
rows are inserted sequentially and the first constraint violation aborts
the whole statement (the caller then rolls the transaction back, discarding
the partial state). -/
def executemany : Store → List KeyInfo → Except String Store
  | st, [] => .ok st
  | st, k :: ks =>
    match insertRow st k with
    | .error e => .error e
    | .ok st2 => executemany st2 ks

/-- The per-row fallback loop of `save_keys_to_db`: each new descriptor is
inserted in its own statement, a failing insert is reported and skipped,
and the successful inserts are counted. -/
def fallbackInserts : Store → List KeyInfo → Store × Nat
  | st, [] => (st, 0)
  | st, k :: ks =>
    match insertRow st k with
    | .ok st2 =>
      let r := fallbackInserts st2 ks
      (r.1, r.2 + 1)
    | .error _ => fallbackInserts st ks

/-- The rows the fallback loop actually persists: scanning the pending new
descriptors in order, a descriptor is kept exactly when its identity is not
yet in the store built so far. -/
def greedySelect (st : Store) : List KeyInfo → List KeyInfo
  | [] => []
  | k :: ks =>
    if identity k ∈ st.map identity then greedySelect st ks
    else k :: greedySelect (st ++ [k]) ks

/-- The `new_keys` list of `save_keys_to_db`: input descriptors whose
identity is not in the existing set, in input order. -/
def partitionNew (existing : List Identity) (keys : List KeyInfo) :
    List KeyInfo :=
  keys.filter (fun k => decide (identity k ∉ existing))

/-- The `skipped` counter of `save_keys_to_db`: input descriptors whose
identity is in the existing set. -/
def countSkipped (existing : List Identity) (keys : List KeyInfo) : Nat :=
  keys.countP (fun k => decide (identity k ∈ existing))

/-- The body of `save_keys_to_db` after the existing-keys query: partition
the input, batch-insert the new descriptors in one transaction; on success
the count is `cursor.rowcount` = `len(new_keys)` (0 when there were none);
on failure the transaction is rolled back and the per-row fallback runs
from the pre-transaction state and is committed. -/
def savePostExisting (st : Store) (keys : List KeyInfo)
    (existing : List Identity) : Option Store × Nat × Nat :=
  match executemany st (partitionNew existing keys) with
  | .ok st2 =>
    (some st2, (partitionNew existing keys).length, countSkipped existing keys)
  | .error _ =>
    (some (fallbackInserts st (partitionNew existing keys)).1,
     (fallbackInserts st (partitionNew existing keys)).2,
     countSkipped existing keys)

/-- `save_keys_to_db`: empty input returns `(0, 0)` before any schema or
storage access; otherwise the schema is ensured and the existing identities
are fetched — an engine error there propagates, as in the Python code where
`get_existing_keys` is called outside the try block — and the insert stage
runs. -/
def save_keys_to_db (db : Option Store) (keys : List KeyInfo) :
    Except String (Option Store × Nat × Nat) :=
  if keys = [] then .ok (db, 0, 0)
  else
    match get_existing_keys (setup_database db) keys with
    | .error e => .error e
    | .ok existing => .ok (savePostExisting (setup_database db) keys existing)

/-- ASCII case folding as performed by SQLite's default `LIKE`
(`sqlite3UpperToLower`): `A`–`Z` fold to `a`–`z`, everything else is
untouched. -/
def likeFold (c : Char) : Char :=
  if 'A' ≤ c ∧ c ≤ 'Z' then Char.ofNat (c.toNat + 32) else c

/-- SQLite `LIKE` pattern matching (no ESCAPE clause): `%` matches any
sequence of characters, `_` matches any single character, and any other
pattern character matches ASCII-case-insensitively. -/
def likeMatch : List Char → List Char → Bool
  | [], s => s.isEmpty
  | p :: ps, s =>
    if p = '%' then s.tails.any (fun t => likeMatch ps t)
    else
      match s with
      | [] => false
      | c :: cs => (p == '_' || likeFold p == likeFold c) && likeMatch ps cs

/-- The pattern `f"%{query}%"` built by `search_keys`. -/
def likePattern (q : String) : List Char := '%' :: (q.data ++ ['%'])

/-- The `(bucket, key, last_modified)` tuple returned by `search_keys`. -/
def rowTuple (r : KeyInfo) : String × String × String :=
  (r.bucket, r.key, r.last_modified)

/-- `search_keys`: ensures the schema (so a never-created store reads as an
empty table), then `SELECT bucket, key, last_modified FROM s3_keys WHERE
key LIKE ?` with pattern `%query%`, in storage order. -/
def search_keys (db : Option Store) (q : String) :
    List (String × String × String) :=
  let st := setup_database db
  (st.filter (fun r => likeMatch (likePattern q) r.key.data)).map rowTuple

/-- One remote object as the paginator yields it: its key and the
ISO-formatted last-modified timestamp. -/
structure S3Object where
  key : String
  last_modified : String
deriving DecidableEq, Repr

/-- The observable enumeration of one bucket: the objects the paginator
produced, in order, and whether pagination ran to completion (`ok = true`)
or raised after producing them (`ok = false`, the `except` path). -/
structure BucketListing where
  name : String
  objs : List S3Object
  ok : Bool
deriving DecidableEq, Repr

/-- The descriptor dictionary `list_s3_keys` builds for one object. -/
def descOf (bucket : String) (o : S3Object) : KeyInfo :=
  ⟨bucket, o.key, o.last_modified⟩

/-- The batching loop of `list_s3_keys` for one bucket: descriptors are
appended to `batch`, which is yielded as soon as `len(batch) >= batch_size`;
when the descriptors run out (pagination finished or raised) a non-empty
remainder is yielded. -/
def emitBatches (B : Nat) : List KeyInfo → List KeyInfo → List (List KeyInfo)
  | batch, [] => if batch = [] then [] else [batch]
  | batch, d :: ds =>
    if B ≤ (batch ++ [d]).length then (batch ++ [d]) :: emitBatches B [] ds
    else emitBatches B (batch ++ [d]) ds

/-- Everything `list_s3_keys` yields for one bucket.  The success path
(flush after the last page) and the failure path (flush in the `except`
handler) yield the same batches over the objects actually produced; the
exception itself is caught and only reported to the console, so the
generator is total. -/
def processBucket (B : Nat) (b : BucketListing) : List (List KeyInfo) :=
  emitBatches B [] (b.objs.map (descOf b.name))

/-- `list_s3_keys` over its bucket list (a single bucket when a name was
given, all visible buckets otherwise): buckets are processed in order and
their batches concatenated. -/
def list_s3_keys (buckets : List BucketListing) (B : Nat) :
    List (List KeyInfo) :=
  (buckets.map (processBucket B)).flatten

/-- A sequence of `save_keys_to_db` calls threading the database state.  A
call that raises (oversized existing-keys query) still leaves the schema
created and the rows untouched. -/
def runSaves (db : Option Store) : List (List KeyInfo) → Option Store
  | [] => db
  | keys :: rest =>
    match save_keys_to_db db keys with
    | .ok r => runSaves r.1 rest
    | .error _ => runSaves (some (setup_database db)) rest

/-- The uniqueness invariant of the `s3_keys` table: no two rows share a
(bucket, key) identity. -/
def distinctIdentities (st : Store) : Prop := (st.map identity).Nodup

instance (st : Store) : Decidable (distinctIdentities st) := by
  unfold distinctIdentities; infer_instance

/-- Case-sensitive list prefix test (spec-side notion, for comparing the
code's `LIKE` behaviour with plain substring containment). -/
def beginsWith : List Char → List Char → Bool
  | [], _ => true
  | _ :: _, [] => false
  | a :: as, b :: bs => a == b && beginsWith as bs

/-- Case-sensitive substring containment (spec-side notion): `needle`
occurs contiguously somewhere in `hay`. -/
def substringOf (needle hay : List Char) : Bool :=
  hay.tails.any (fun t => beginsWith needle t)

/-- A query is wildcard-free when it contains neither `%` nor `_`. -/
def noWildcards (q : String) : Prop := ∀ c ∈ q.data, c ≠ '%' ∧ c ≠ '_'

instance (q : String) : Decidable (noWildcards q) := by
  unfold noWildcards; infer_instance

/-- Concrete fixture: a store holding identities A and B. -/
def demoStoreAB : Store := [⟨"b", "A", "t0"⟩, ⟨"b", "B", "t0"⟩]

/-- Concrete fixture: a save input with identities A (duplicate), C, D. -/
def demoKeysACD : List KeyInfo :=
  [⟨"b", "A", "t1"⟩, ⟨"b", "C", "t1"⟩, ⟨"b", "D", "t1"⟩]

/-- Concrete fixture: the result of saving `demoKeysACD` over `demoStoreAB`. -/
def demoResACD : Option Store × Nat × Nat :=
  (some [⟨"b", "A", "t0"⟩, ⟨"b", "B", "t0"⟩, ⟨"b", "C", "t1"⟩, ⟨"b", "D", "t1"⟩],
   2, 1)

/-- Concrete fixture: two descriptors with the same (bucket, key) identity. -/
def demoDupKeys : List KeyInfo := [⟨"b", "k", "t1"⟩, ⟨"b", "k", "t2"⟩]

/-- Concrete fixture: the three stored keys of the search unit tests. -/
def demoSearchStore : Store :=
  [⟨"test-bucket-1", "folder1/test1.txt", "t"⟩,
   ⟨"test-bucket-1", "folder1/test2.txt", "t"⟩,
   ⟨"test-bucket-2", "folder2/test3.txt", "t"⟩]

/-- A candidate list of 16384 distinct (bucket, key) pairs: its existence
check binds 2 × 16384 = 32768 parameters, above the engine ceiling. -/
def bigCandidateList : List KeyInfo :=
  (List.range 16384).map (fun i => ⟨"bucket", toString i, "t"⟩)

example : save_keys_to_db none [⟨"b", "k", "t"⟩] =
    .ok (some [⟨"b", "k", "t"⟩], 1, 0) := by decide

example : save_keys_to_db (some [⟨"b", "k", "t"⟩]) [⟨"b", "k", "t2"⟩] =
    .ok (some [⟨"b", "k", "t"⟩], 0, 1) := by decide

example : save_keys_to_db none [⟨"b", "k", "t"⟩, ⟨"b", "k", "t2"⟩] =
    .ok (some [⟨"b", "k", "t"⟩], 1, 0) := by decide

example : search_keys (some [⟨"b", "ABC", "t"⟩]) "abc" =
    [("b", "ABC", "t")] := by decide

example : search_keys none "abc" = [] := by decide

example :
    list_s3_keys [⟨"bk", [⟨"k1", "t"⟩, ⟨"k2", "t"⟩, ⟨"k3", "t"⟩], true⟩] 2 =
      [[⟨"bk", "k1", "t"⟩, ⟨"bk", "k2", "t"⟩], [⟨"bk", "k3", "t"⟩]] := by
  decide

/-! ### Basic lemmas about the store operations -/

theorem get_existing_keys_eq (st : Store) (keys : List KeyInfo)
    (hsz : 2 * keys.length ≤ SQLITE_MAX_VARIABLE_NUMBER) :
    get_existing_keys st keys =
      .ok ((st.map identity).filter (fun p => decide (p ∈ keys.map identity))) := by
  unfold get_existing_keys
  by_cases hk : keys = []
  · subst hk
    rw [if_pos rfl]
    have : (st.map identity).filter
        (fun p => decide (p ∈ (List.map identity []))) = [] := by
      apply List.filter_eq_nil_iff.2
      intro a _
      simp
    rw [this]
  · rw [if_neg hk, if_neg (by omega)]

theorem existingOf_spec (db : Option Store) (keys : List KeyInfo)
    (hsz : 2 * keys.length ≤ SQLITE_MAX_VARIABLE_NUMBER) :
    get_existing_keys (setup_database db) keys = .ok (existingOf db keys) :=
  get_existing_keys_eq _ _ hsz

theorem mem_existingOf (db : Option Store) (keys : List KeyInfo)
    (p : Identity) :
    p ∈ existingOf db keys ↔
      p ∈ (setup_database db).map identity ∧ p ∈ keys.map identity := by
  unfold existingOf
  rw [List.mem_filter, decide_eq_true_eq]

theorem save_keys_nil (db : Option Store) :
    save_keys_to_db db [] = .ok (db, 0, 0) := rfl

theorem save_keys_eq (db : Option Store) (keys : List KeyInfo)
    (hne : keys ≠ []) (hsz : 2 * keys.length ≤ SQLITE_MAX_VARIABLE_NUMBER) :
    save_keys_to_db db keys =
      .ok (savePostExisting (setup_database db) keys (existingOf db keys)) := by
  unfold save_keys_to_db
  rw [if_neg hne, existingOf_spec db keys hsz]

theorem save_keys_oversized (db : Option Store) (keys : List KeyInfo)
    (hne : keys ≠ []) (hsz : SQLITE_MAX_VARIABLE_NUMBER < 2 * keys.length) :
    save_keys_to_db db keys = .error "too many SQL variables" := by
  unfold save_keys_to_db get_existing_keys
  rw [if_neg hne, if_neg hne, if_pos hsz]

theorem save_ok_size {db : Option Store} {keys : List KeyInfo}
    {res : Option Store × Nat × Nat} (hne : keys ≠ [])
    (h : save_keys_to_db db keys = .ok res) :
    2 * keys.length ≤ SQLITE_MAX_VARIABLE_NUMBER := by
  by_contra hgt
  rw [save_keys_oversized db keys hne (by omega)] at h
  exact absurd h (by simp)

theorem savePost_batch_ok {st : Store} {keys : List KeyInfo}
    {existing : List Identity} {st2 : Store}
    (hb : executemany st (partitionNew existing keys) = .ok st2) :
    savePostExisting st keys existing =
      (some st2, (partitionNew existing keys).length,
       countSkipped existing keys) := by
  unfold savePostExisting
  rw [hb]

theorem fallbackInserts_eq_greedy (ks : List KeyInfo) :
    ∀ st : Store, fallbackInserts st ks =
      (st ++ greedySelect st ks, (greedySelect st ks).length) := by
  induction ks with
  | nil => intro st; simp [fallbackInserts, greedySelect]
  | cons k ks ih =>
    intro st
    by_cases hm : identity k ∈ st.map identity
    · simp [fallbackInserts, greedySelect, insertRow, hm, ih]
    · simp [fallbackInserts, greedySelect, insertRow, hm, ih st, ih (st ++ [k])]

theorem savePost_batch_error {st : Store} {keys : List KeyInfo}
    {existing : List Identity} {e : String}
    (hb : executemany st (partitionNew existing keys) = .error e) :
    savePostExisting st keys existing =
      (some (st ++ greedySelect st (partitionNew existing keys)),
       (greedySelect st (partitionNew existing keys)).length,
       countSkipped existing keys) := by
  unfold savePostExisting
  rw [hb, fallbackInserts_eq_greedy]

theorem executemany_ok_append {ks : List KeyInfo} :
    ∀ {st st2 : Store}, executemany st ks = .ok st2 → st2 = st ++ ks := by
  induction ks with
  | nil =>
    intro st st2 h
    injection h with h
    simp [h.symm]
  | cons k ks ih =>
    intro st st2 h
    unfold executemany insertRow at h
    by_cases hm : identity k ∈ st.map identity
    · rw [if_pos hm] at h
      exact absurd h (by simp)
    · rw [if_neg hm] at h
      have := ih h
      simp [this]

theorem executemany_ok_of_fresh (ks : List KeyInfo) :
    ∀ st : Store, (∀ k ∈ ks, identity k ∉ st.map identity) →
      (ks.map identity).Nodup → executemany st ks = .ok (st ++ ks) := by
  induction ks with
  | nil => intro st _ _; simp [executemany]
  | cons k ks ih =>
    intro st hfresh hnd
    have hm : identity k ∉ st.map identity := hfresh k (by simp)
    unfold executemany insertRow
    rw [if_neg hm]
    have hfresh2 : ∀ k' ∈ ks, identity k' ∉ (st ++ [k]).map identity := by
      intro k' hk'
      rw [List.map_append, List.mem_append]
      rintro (h1 | h2)
      · exact hfresh k' (by simp [hk']) h1
      · simp at h2
        rw [List.map_cons, List.nodup_cons] at hnd
        exact hnd.1 (h2 ▸ List.mem_map_of_mem identity hk')
    have hnd2 : (ks.map identity).Nodup := by
      rw [List.map_cons, List.nodup_cons] at hnd
      exact hnd.2
    show executemany (st ++ [k]) ks = .ok (st ++ k :: ks)
    rw [ih (st ++ [k]) hfresh2 hnd2]
    simp

theorem executemany_error_of_mem (ks : List KeyInfo) :
    ∀ st : Store, (∃ k ∈ ks, identity k ∈ st.map identity) →
      ∃ e, executemany st ks = .error e := by
  induction ks with
  | nil => intro st h; simp at h
  | cons k ks ih =>
    intro st h
    unfold executemany insertRow
    by_cases hm : identity k ∈ st.map identity
    · rw [if_pos hm]
      exact ⟨_, rfl⟩
    · rw [if_neg hm]
      obtain ⟨k', hk', hmem⟩ := h
      rcases List.mem_cons.1 hk' with h1 | h1

      · exact absurd (h1 ▸ hmem) hm
      · exact ih (st ++ [k]) ⟨k', h1, by rw [List.map_append, List.mem_append]; exact .inl hmem⟩

theorem executemany_error_of_dup (ks : List KeyInfo) :
    ∀ st : Store, ¬ (ks.map identity).Nodup →
      ∃ e, executemany st ks = .error e := by
  induction ks with
  | nil => intro st h; simp at h
  | cons k ks ih =>
    intro st hdup
    unfold executemany insertRow
    by_cases hm : identity k ∈ st.map identity
    · rw [if_pos hm]
      exact ⟨_, rfl⟩
    · rw [if_neg hm]
      rw [List.map_cons, List.nodup_cons] at hdup
      by_cases hin : identity k ∈ ks.map identity
      · obtain ⟨k', hk', hk'eq⟩ := List.mem_map.1 hin
        exact executemany_error_of_mem ks (st ++ [k])
          ⟨k', hk', by rw [List.map_append, List.mem_append]; right; simp [hk'eq]⟩
      · exact ih (st ++ [k]) (fun h => hdup ⟨hin, h⟩)

/-! ### Lemmas about the fallback selection and the uniqueness invariant -/

theorem greedySelect_avoids (ks : List KeyInfo) :
    ∀ (st : Store) (p : Identity), p ∈ st.map identity →
      ∀ r ∈ greedySelect st ks, identity r ≠ p := by
  induction ks with
  | nil => intro st p _ r hr; simp [greedySelect] at hr
  | cons k ks ih =>
    intro st p hp r hr
    unfold greedySelect at hr
    by_cases hm : identity k ∈ st.map identity
    · rw [if_pos hm] at hr
      exact ih st p hp r hr
    · rw [if_neg hm] at hr
      rcases List.mem_cons.1 hr with h1 | h1
      · subst h1
        exact fun he => hm (he ▸ hp)
      · refine ih (st ++ [k]) p ?_ r h1
        rw [List.map_append, List.mem_append]
        exact .inl hp

theorem greedySelect_sub (ks : List KeyInfo) :
    ∀ st : Store, ∀ r ∈ greedySelect st ks, r ∈ ks := by
  induction ks with
  | nil => intro st r hr; simp [greedySelect] at hr
  | cons k ks ih =>
    intro st r hr
    unfold greedySelect at hr
    by_cases hm : identity k ∈ st.map identity
    · rw [if_pos hm] at hr
      exact List.mem_cons_of_mem _ (ih st r hr)
    · rw [if_neg hm] at hr
      rcases List.mem_cons.1 hr with h1 | h1
      · exact h1 ▸ List.mem_cons_self _ _
      · exact List.mem_cons_of_mem _ (ih (st ++ [k]) r h1)

theorem distinct_append_fresh {st : Store} {k : KeyInfo}
    (h : distinctIdentities st) (hm : identity k ∉ st.map identity) :
    distinctIdentities (st ++ [k]) := by
  unfold distinctIdentities at h ⊢
  rw [List.map_append, List.nodup_append]
  refine ⟨h, List.nodup_singleton _, ?_⟩
  intro a ha hb
  simp at hb
  exact hm (hb ▸ ha)

theorem greedySelect_distinct (ks : List KeyInfo) :
    ∀ st : Store, distinctIdentities st →
      distinctIdentities (st ++ greedySelect st ks) := by
  induction ks with
  | nil => intro st h; simpa [greedySelect] using h
  | cons k ks ih =>
    intro st h
    unfold greedySelect
    by_cases hm : identity k ∈ st.map identity
    · rw [if_pos hm]
      exact ih st h
    · rw [if_neg hm]
      have := ih (st ++ [k]) (distinct_append_fresh h hm)
      simpa using this

theorem executemany_ok_distinct {ks : List KeyInfo} :
    ∀ {st st2 : Store}, executemany st ks = .ok st2 →
      distinctIdentities st → distinctIdentities st2 := by
  induction ks with
  | nil =>
    intro st st2 h hd
    injection h with h
    exact h ▸ hd
  | cons k ks ih =>
    intro st st2 h hd
    unfold executemany insertRow at h
    by_cases hm : identity k ∈ st.map identity
    · rw [if_pos hm] at h
      exact absurd h (by simp)
    · rw [if_neg hm] at h
      exact ih h (distinct_append_fresh hd hm)

theorem save_preserves_distinct {db : Option Store} {keys : List KeyInfo}
    {res : Option Store × Nat × Nat}
    (h : distinctIdentities (setup_database db))
    (hok : save_keys_to_db db keys = .ok res) :
    distinctIdentities (setup_database res.1) := by
  by_cases hne : keys = []
  · subst hne
    rw [save_keys_nil] at hok
    injection hok with hok
    rw [← hok]
    exact h
  · have hsz := save_ok_size hne hok
    rw [save_keys_eq db keys hne hsz] at hok
    injection hok with hok
    rw [← hok]
    unfold savePostExisting
    cases hb : executemany (setup_database db)
        (partitionNew (existingOf db keys) keys) with
    | ok st2 => exact executemany_ok_distinct hb h
    | error e =>
      rw [fallbackInserts_eq_greedy]
      exact greedySelect_distinct _ _ h

/-- C1 — Uniqueness invariant: starting from any store satisfying the
(bucket, key) uniqueness invariant (in particular a fresh one), every
sequence of `save_keys_to_db` calls leaves a store in which no two rows
share a (bucket, key) identity: every reachable store state has at most one
row per identity. -/
theorem save_sequences_preserve_uniqueness (db : Option Store)
    (h : distinctIdentities (setup_database db))
    (batches : List (List KeyInfo)) :
    distinctIdentities (setup_database (runSaves db batches)) := by
  induction batches generalizing db with
  | nil => exact h
  | cons keys rest ih =>
    unfold runSaves
    cases hok : save_keys_to_db db keys with
    | ok r => exact ih _ (save_preserves_distinct h hok)
    | error e => exact ih _ h

theorem save_sequences_preserve_uniqueness_witness :
    distinctIdentities (setup_database (runSaves none
      [[⟨"b1", "k1", "t1"⟩, ⟨"b1", "k2", "t1"⟩],
       [⟨"b1", "k1", "t2"⟩, ⟨"b2", "k1", "t2"⟩, ⟨"b1", "k1", "t3"⟩]])) :=
  save_sequences_preserve_uniqueness none (by decide) _

/-! ### The partition taken by `save_keys_to_db` and its consequences -/

theorem mem_partitionNew {existing : List Identity} {keys : List KeyInfo}
    {k : KeyInfo} :
    k ∈ partitionNew existing keys ↔ k ∈ keys ∧ identity k ∉ existing := by
  unfold partitionNew
  rw [List.mem_filter, decide_eq_true_eq]

theorem partitionNew_fresh (db : Option Store) (keys : List KeyInfo) :
    ∀ k ∈ partitionNew (existingOf db keys) keys,
      identity k ∉ (setup_database db).map identity := by
  intro k hk hmem
  obtain ⟨hk1, hk2⟩ := mem_partitionNew.1 hk
  exact hk2 ((mem_existingOf db keys _).2
    ⟨hmem, List.mem_map_of_mem identity hk1⟩)

theorem partitionNew_nodup {existing : List Identity} {keys : List KeyInfo}
    (hnd : (keys.map identity).Nodup) :
    ((partitionNew existing keys).map identity).Nodup :=
  List.Nodup.sublist (List.Sublist.map identity (List.filter_sublist keys)) hnd

theorem save_keys_batch_success (db : Option Store) (keys : List KeyInfo)
    (hne : keys ≠ []) (hsz : 2 * keys.length ≤ SQLITE_MAX_VARIABLE_NUMBER)
    (hnd : (keys.map identity).Nodup) :
    save_keys_to_db db keys =
      .ok (some (setup_database db ++ partitionNew (existingOf db keys) keys),
           (partitionNew (existingOf db keys) keys).length,
           countSkipped (existingOf db keys) keys) := by
  rw [save_keys_eq db keys hne hsz,
    savePost_batch_ok (executemany_ok_of_fresh _ _ (partitionNew_fresh db keys)
      (partitionNew_nodup hnd))]

/-- C2 — Idempotence of save: if a save of a list with pairwise-distinct
identities has already been performed, an identical second save returns
`inserted_count = 0` and `skipped_count = len(keys)` and leaves the store
unchanged. -/
theorem save_idempotent (db : Option Store) (keys : List KeyInfo)
    (hnd : (keys.map identity).Nodup)
    (db1 : Option Store) (c s : Nat)
    (h1 : save_keys_to_db db keys = .ok (db1, c, s)) :
    save_keys_to_db db1 keys = .ok (db1, 0, keys.length) := by
  by_cases hne : keys = []
  · subst hne
    rw [save_keys_nil] at h1
    injection h1 with h1
    have hdb : db = db1 := congrArg Prod.fst h1
    rw [← hdb]
    exact save_keys_nil db
  · have hsz := save_ok_size hne h1
    rw [save_keys_batch_success db keys hne hsz hnd] at h1
    injection h1 with h1
    have hdb : db1 =
        some (setup_database db ++ partitionNew (existingOf db keys) keys) :=
      (congrArg Prod.fst h1).symm
    subst hdb
    have hcov : ∀ k ∈ keys, identity k ∈
        (setup_database db ++ partitionNew (existingOf db keys) keys).map
          identity := by
      intro k hk
      rw [List.map_append, List.mem_append]
      by_cases hex : identity k ∈ existingOf db keys
      · exact .inl ((mem_existingOf db keys _).1 hex).1
      · exact .inr (List.mem_map_of_mem identity (mem_partitionNew.2 ⟨hk, hex⟩))
    have hex2 : ∀ k ∈ keys, identity k ∈
        existingOf (some (setup_database db ++
          partitionNew (existingOf db keys) keys)) keys := by
      intro k hk
      exact (mem_existingOf _ keys _).2
        ⟨hcov k hk, List.mem_map_of_mem identity hk⟩
    have hempty : partitionNew (existingOf (some (setup_database db ++
        partitionNew (existingOf db keys) keys)) keys) keys = [] := by
      apply List.filter_eq_nil_iff.2
      intro k hk
      simp [hex2 k hk]
    have hskip : countSkipped (existingOf (some (setup_database db ++
        partitionNew (existingOf db keys) keys)) keys) keys = keys.length := by
      apply List.countP_eq_length.2
      intro k hk
      simp [hex2 k hk]
    have hb : executemany
        (setup_database (some (setup_database db ++
          partitionNew (existingOf db keys) keys)))
        (partitionNew (existingOf (some (setup_database db ++
          partitionNew (existingOf db keys) keys)) keys) keys) =
        .ok (setup_database db ++ partitionNew (existingOf db keys) keys) := by
      rw [hempty]
      rfl
    rw [save_keys_eq _ keys hne hsz, savePost_batch_ok hb, hempty, hskip]
    rfl

theorem save_idempotent_witness :
    save_keys_to_db (some [⟨"b", "k1", "t"⟩, ⟨"b", "k2", "t"⟩])
      [⟨"b", "k1", "t"⟩, ⟨"b", "k2", "t"⟩] =
      .ok (some [⟨"b", "k1", "t"⟩, ⟨"b", "k2", "t"⟩], 0, 2) :=
  save_idempotent none [⟨"b", "k1", "t"⟩, ⟨"b", "k2", "t"⟩] (by decide)
    (some [⟨"b", "k1", "t"⟩, ⟨"b", "k2", "t"⟩]) 2 0 (by decide)

/-- C3 — Save partition postcondition: on a non-empty input with
pairwise-distinct identities, `save_keys_to_db` skips exactly the
descriptors whose identity is already stored, inserts exactly the others
(the batch path succeeds), and afterwards the stored identities are the
union of the previous ones and the input ones. -/
theorem save_partitions_input (db : Option Store) (keys : List KeyInfo)
    (hne : keys ≠ []) (hnd : (keys.map identity).Nodup)
    (res : Option Store × Nat × Nat)
    (hok : save_keys_to_db db keys = .ok res) :
    res.2.2 = keys.countP
      (fun k => decide (identity k ∈ (setup_database db).map identity)) ∧
    res.2.1 = keys.countP
      (fun k => decide (identity k ∉ (setup_database db).map identity)) ∧
    ∀ p : Identity, p ∈ (setup_database res.1).map identity ↔
      (p ∈ (setup_database db).map identity ∨ p ∈ keys.map identity) := by
  have hsz := save_ok_size hne hok
  rw [save_keys_batch_success db keys hne hsz hnd] at hok
  injection hok with hok
  subst hok
  refine ⟨?_, ?_, ?_⟩
  · unfold countSkipped
    apply List.countP_congr
    intro k hk
    simp only [decide_eq_true_eq]
    rw [mem_existingOf]
    exact ⟨fun h => h.1, fun h => ⟨h, List.mem_map_of_mem identity hk⟩⟩
  · unfold partitionNew
    rw [← List.countP_eq_length_filter]
    apply List.countP_congr
    intro k hk
    simp only [decide_eq_true_eq]
    rw [mem_existingOf]
    constructor
    · intro h hm
      exact h ⟨hm, List.mem_map_of_mem identity hk⟩
    · intro h hm
      exact h hm.1
  · intro p
    show p ∈ (setup_database db ++
      partitionNew (existingOf db keys) keys).map identity ↔ _
    rw [List.map_append, List.mem_append]
    constructor
    · rintro (h | h)
      · exact .inl h
      · obtain ⟨k, hk, hkp⟩ := List.mem_map.1 h
        exact .inr (hkp ▸ List.mem_map_of_mem identity
          (mem_partitionNew.1 hk).1)
    · rintro (h | h)
      · exact .inl h
      · by_cases hst : p ∈ (setup_database db).map identity
        · exact .inl hst
        · obtain ⟨k, hk, hkp⟩ := List.mem_map.1 h
          refine .inr (List.mem_map.2 ⟨k, mem_partitionNew.2 ⟨hk, ?_⟩, hkp⟩)
          rw [mem_existingOf]
          exact fun hc => hst (hkp ▸ hc.1)

theorem save_partitions_input_witness :
    demoResACD.2.2 = demoKeysACD.countP
      (fun k => decide (identity k ∈
        (setup_database (some demoStoreAB)).map identity)) ∧
    demoResACD.2.1 = demoKeysACD.countP
      (fun k => decide (identity k ∉
        (setup_database (some demoStoreAB)).map identity)) ∧
    ∀ p : Identity, p ∈ (setup_database demoResACD.1).map identity ↔
      (p ∈ (setup_database (some demoStoreAB)).map identity ∨
       p ∈ demoKeysACD.map identity) :=
  save_partitions_input (some demoStoreAB) demoKeysACD (by decide) (by decide)
    demoResACD (by decide)

/-- C4 — Fallback correctness: when the atomic batch insert of the new
descriptors fails, the transaction is rolled back and the new descriptors
are inserted individually from the pre-transaction state; the individually
successful inserts (the greedy selection) are persisted, failures are
excluded from the count, and the returned inserted count equals exactly the
number of rows added to the store by the call. -/
theorem save_fallback_persists_individual_inserts
    (db : Option Store) (keys : List KeyInfo)
    (hne : keys ≠ []) (hsz : 2 * keys.length ≤ SQLITE_MAX_VARIABLE_NUMBER)
    (e : String)
    (hfail : executemany (setup_database db)
      (partitionNew (existingOf db keys) keys) = .error e) :
    save_keys_to_db db keys =
      .ok (some (setup_database db ++ greedySelect (setup_database db)
             (partitionNew (existingOf db keys) keys)),
           (greedySelect (setup_database db)
             (partitionNew (existingOf db keys) keys)).length,
           countSkipped (existingOf db keys) keys) ∧
    (setup_database db ++ greedySelect (setup_database db)
        (partitionNew (existingOf db keys) keys)).length =
      (setup_database db).length +
        (greedySelect (setup_database db)
          (partitionNew (existingOf db keys) keys)).length := by
  refine ⟨?_, List.length_append _ _⟩
  rw [save_keys_eq db keys hne hsz, savePost_batch_error hfail]

theorem save_fallback_witness :
    (save_keys_to_db none demoDupKeys =
      .ok (some (setup_database none ++ greedySelect (setup_database none)
             (partitionNew (existingOf none demoDupKeys) demoDupKeys)),
           (greedySelect (setup_database none)
             (partitionNew (existingOf none demoDupKeys) demoDupKeys)).length,
           countSkipped (existingOf none demoDupKeys) demoDupKeys) ∧
    (setup_database none ++ greedySelect (setup_database none)
        (partitionNew (existingOf none demoDupKeys) demoDupKeys)).length =
      (setup_database none).length +
        (greedySelect (setup_database none)
          (partitionNew (existingOf none demoDupKeys) demoDupKeys)).length) :=
  save_fallback_persists_individual_inserts none demoDupKeys (by decide)
    (by decide) "UNIQUE constraint failed: s3_keys.bucket, s3_keys.key"
    (by decide)

/-- C9 — Frame property of re-sync: any identity already stored before a
`save_keys_to_db` call keeps exactly its old row — `last_modified`
included — after the call, even when the input carries that identity with
a different timestamp: insertion is insert-if-absent, never upsert. -/
theorem save_frame_existing_rows (db : Option Store) (keys : List KeyInfo)
    (res : Option Store × Nat × Nat)
    (hok : save_keys_to_db db keys = .ok res)
    (p : Identity) (hp : p ∈ (setup_database db).map identity) :
    (setup_database res.1).filter (fun r => decide (identity r = p)) =
      (setup_database db).filter (fun r => decide (identity r = p)) := by
  by_cases hne : keys = []
  · subst hne
    rw [save_keys_nil] at hok
    injection hok with hok
    rw [← hok]
  · have hsz := save_ok_size hne hok
    rw [save_keys_eq db keys hne hsz] at hok
    injection hok with hok
    rw [← hok]
    unfold savePostExisting
    cases hb : executemany (setup_database db)
        (partitionNew (existingOf db keys) keys) with
    | ok st2 =>
      have hst2 := executemany_ok_append hb
      subst hst2
      show ((setup_database db ++ _).filter _) = _
      rw [List.filter_append]
      have : (partitionNew (existingOf db keys) keys).filter
          (fun r => decide (identity r = p)) = [] := by
        apply List.filter_eq_nil_iff.2
        intro k hk
        simp only [decide_eq_true_eq]
        exact fun he => partitionNew_fresh db keys k hk (he ▸ hp)
      rw [this, List.append_nil]
    | error e =>
      rw [fallbackInserts_eq_greedy]
      show ((setup_database db ++ _).filter _) = _
      rw [List.filter_append]
      have : (greedySelect (setup_database db)
          (partitionNew (existingOf db keys) keys)).filter
            (fun r => decide (identity r = p)) = [] := by
        apply List.filter_eq_nil_iff.2
        intro k hk
        simp only [decide_eq_true_eq]
        exact greedySelect_avoids _ _ p hp k hk
      rw [this, List.append_nil]

theorem save_frame_existing_rows_witness :
    (setup_database (some [⟨"b", "k", "t1"⟩], 0, 1).1).filter
        (fun r => decide (identity r = ("b", "k"))) =
      (setup_database (some [⟨"b", "k", "t1"⟩])).filter
        (fun r => decide (identity r = ("b", "k"))) :=
  save_frame_existing_rows (some [⟨"b", "k", "t1"⟩]) [⟨"b", "k", "t2"⟩]
    (some [⟨"b", "k", "t1"⟩], 0, 1) (by decide) ("b", "k") (by decide)

/-- C5 — the existing-keys check issues one query with two bound parameters
per candidate pair and no chunking: at 16384 candidates it exceeds SQLite's
default ceiling of 32766 bound variables and fails, for any store. -/
theorem get_existing_keys_exceeds_engine_param_limit :
    get_existing_keys [] bigCandidateList = .error "too many SQL variables" := by
  have hlen : bigCandidateList.length = 16384 := by
    unfold bigCandidateList
    rw [List.length_map, List.length_range]
  have hne : bigCandidateList ≠ [] := by
    intro h
    rw [h] at hlen
    simp at hlen
  unfold get_existing_keys
  rw [if_neg hne, if_pos (by rw [hlen]; decide)]

/-! ### Intra-batch duplicate identities -/

theorem greedySelect_filter_first (ks : List KeyInfo) :
    ∀ (st : Store) (p : Identity), p ∉ st.map identity →
      (greedySelect st ks).filter (fun r => decide (identity r = p)) =
        (ks.find? (fun k => decide (identity k = p))).toList := by
  induction ks with
  | nil => intro st p _; simp [greedySelect, List.find?_nil]
  | cons k ks ih =>
    intro st p hp
    unfold greedySelect
    by_cases hm : identity k ∈ st.map identity
    · rw [if_pos hm]
      have hkp : identity k ≠ p := fun he => hp (he ▸ hm)
      rw [List.find?_cons,
        show decide (identity k = p) = false from decide_eq_false hkp]
      exact ih st p hp
    · rw [if_neg hm]
      by_cases hkp : identity k = p
      · rw [List.filter_cons, if_pos (by simp [hkp])]
        have h1 : (greedySelect (st ++ [k]) ks).filter
            (fun r => decide (identity r = p)) = [] := by
          apply List.filter_eq_nil_iff.2
          intro r hr
          simp only [decide_eq_true_eq]
          apply greedySelect_avoids ks (st ++ [k]) p _ r hr
          rw [List.map_append, List.mem_append]
          right
          simp [hkp]
        rw [h1, List.find?_cons,
          show decide (identity k = p) = true from by simp [hkp]]
        rfl
      · rw [List.filter_cons, if_neg (by simp [hkp]), List.find?_cons,
          show decide (identity k = p) = false from decide_eq_false hkp]
        apply ih (st ++ [k]) p
        rw [List.map_append, List.mem_append]
        rintro (h | h)
        · exact hp h
        · simp at h
          exact hkp h.symm

/-- C10 — Intra-batch duplicate identities: when the input repeats an
identity that is not yet stored, every occurrence is classified as new, the
batch insert fails on the uniqueness constraint and is rolled back, and the
per-row fallback persists exactly one row per input identity — the first
occurrence — counting only the successful inserts; the call returns
normally and the uniqueness invariant is preserved. -/
theorem save_intra_batch_duplicates (db : Option Store) (keys : List KeyInfo)
    (hfresh : ∀ k ∈ keys, identity k ∉ (setup_database db).map identity)
    (hdup : ¬ (keys.map identity).Nodup)
    (hsz : 2 * keys.length ≤ SQLITE_MAX_VARIABLE_NUMBER) :
    partitionNew (existingOf db keys) keys = keys ∧
    (∃ e, executemany (setup_database db) keys = .error e) ∧
    save_keys_to_db db keys =
      .ok (some (setup_database db ++
             greedySelect (setup_database db) keys),
           (greedySelect (setup_database db) keys).length, 0) ∧
    (∀ p ∈ keys.map identity,
      (setup_database db ++ greedySelect (setup_database db) keys).filter
          (fun r => decide (identity r = p)) =
        (keys.find? (fun k => decide (identity k = p))).toList) ∧
    (distinctIdentities (setup_database db) →
      distinctIdentities (setup_database db ++
        greedySelect (setup_database db) keys)) := by
  have hne : keys ≠ [] := by
    intro h
    subst h
    simp at hdup
  have hex0 : existingOf db keys = [] := by
    apply List.filter_eq_nil_iff.2
    intro p hp
    simp only [decide_eq_true_eq]
    intro hmem
    obtain ⟨k, hk, hkp⟩ := List.mem_map.1 hmem
    exact hfresh k hk (hkp ▸ hp)
  have hpart : partitionNew (existingOf db keys) keys = keys := by
    rw [hex0]
    apply List.filter_eq_self.2
    intro k _
    simp
  have hskip0 : countSkipped (existingOf db keys) keys = 0 := by
    rw [hex0]
    apply List.countP_eq_zero.2
    intro k _
    simp
  obtain ⟨e, he⟩ := executemany_error_of_dup keys (setup_database db) hdup
  have hfail : executemany (setup_database db)
      (partitionNew (existingOf db keys) keys) = .error e := by
    rw [hpart]
    exact he
  refine ⟨hpart, ⟨e, he⟩, ?_, ?_, ?_⟩
  · rw [save_keys_eq db keys hne hsz, savePost_batch_error hfail, hpart, hskip0]
  · intro p hpmem
    obtain ⟨k, hk, hkp⟩ := List.mem_map.1 hpmem
    have hpst : p ∉ (setup_database db).map identity := fun hc =>
      hfresh k hk (hkp ▸ hc)
    rw [List.filter_append]
    have hstnil : (setup_database db).filter
        (fun r => decide (identity r = p)) = [] := by
      apply List.filter_eq_nil_iff.2
      intro r hr
      simp only [decide_eq_true_eq]
      exact fun he2 => hpst (he2 ▸ List.mem_map_of_mem identity hr)
    rw [hstnil, List.nil_append]
    exact greedySelect_filter_first keys (setup_database db) p hpst
  · exact fun h => greedySelect_distinct keys (setup_database db) h

theorem save_intra_batch_duplicates_witness :
    partitionNew (existingOf none demoDupKeys) demoDupKeys = demoDupKeys ∧
    (∃ e, executemany (setup_database none) demoDupKeys = .error e) ∧
    save_keys_to_db none demoDupKeys =
      .ok (some (setup_database none ++
             greedySelect (setup_database none) demoDupKeys),
           (greedySelect (setup_database none) demoDupKeys).length, 0) ∧
    (∀ p ∈ demoDupKeys.map identity,
      (setup_database none ++
          greedySelect (setup_database none) demoDupKeys).filter
          (fun r => decide (identity r = p)) =
        (demoDupKeys.find? (fun k => decide (identity k = p))).toList) ∧
    (distinctIdentities (setup_database none) →
      distinctIdentities (setup_database none ++
        greedySelect (setup_database none) demoDupKeys)) :=
  save_intra_batch_duplicates none demoDupKeys (by decide) (by decide)
    (by decide)

/-! ### The listing source: batching and error recovery -/

theorem dropLast_cons_ne {α : Type} (x : α) {l : List α} (h : l ≠ []) :
    (x :: l).dropLast = x :: l.dropLast := by
  cases l with
  | nil => exact absurd rfl h
  | cons y ys => rfl

theorem getLast?_cons_ne {α : Type} (x : α) {l : List α} (h : l ≠ []) :
    (x :: l).getLast? = l.getLast? := by
  cases l with
  | nil => exact absurd rfl h
  | cons y ys => exact List.getLast?_cons_cons

theorem emitBatches_flatten (B : Nat) :
    ∀ (L batch : List KeyInfo), (emitBatches B batch L).flatten = batch ++ L := by
  intro L
  induction L with
  | nil =>
    intro batch
    unfold emitBatches
    by_cases hb : batch = []
    · rw [if_pos hb, hb]
      rfl
    · rw [if_neg hb]
      simp
  | cons d ds ih =>
    intro batch
    unfold emitBatches
    by_cases hB2 : B ≤ (batch ++ [d]).length
    · rw [if_pos hB2, List.flatten_cons, ih []]
      simp
    · rw [if_neg hB2, ih (batch ++ [d])]
      simp

theorem emitBatches_ne_nil (B : Nat) :
    ∀ (L batch : List KeyInfo), batch ≠ [] ∨ L ≠ [] →
      emitBatches B batch L ≠ [] := by
  intro L
  induction L with
  | nil =>
    intro batch h
    unfold emitBatches
    rcases h with h | h
    · rw [if_neg h]
      simp
    · exact absurd rfl h
  | cons d ds ih =>
    intro batch _
    unfold emitBatches
    by_cases hB2 : B ≤ (batch ++ [d]).length
    · rw [if_pos hB2]
      simp
    · rw [if_neg hB2]
      exact ih (batch ++ [d]) (.inl (by simp))

theorem emitBatches_length (B : Nat) (hB : 0 < B) :
    ∀ (L batch : List KeyInfo), batch.length < B →
      (emitBatches B batch L).length =
        (batch.length + L.length + (B - 1)) / B := by
  intro L
  induction L with
  | nil =>
    intro batch hlt
    unfold emitBatches
    by_cases hb : batch = []
    · rw [if_pos hb, hb]
      simp
      exact (Nat.div_eq_of_lt (by omega)).symm
    · rw [if_neg hb]
      have hpos : 0 < batch.length := List.length_pos.2 hb
      simp only [List.length_singleton, List.length_nil]
      exact (Nat.div_eq_of_lt_le (by omega) (by omega)).symm
  | cons d ds ih =>
    intro batch hlt
    unfold emitBatches
    by_cases hB2 : B ≤ (batch ++ [d]).length
    · rw [if_pos hB2]
      have hB2' : B ≤ batch.length + 1 := by simpa using hB2
      rw [List.length_cons, ih [] (by simpa using hB)]
      simp only [List.length_nil, List.length_cons, Nat.zero_add]
      rw [← Nat.add_div_right (ds.length + (B - 1)) hB]
      congr 1
      omega
    · rw [if_neg hB2]
      have hB2' : batch.length + 1 < B := by
        simp at hB2
        omega
      rw [ih (batch ++ [d]) (by simpa using hB2')]
      congr 1
      simp only [List.length_append, List.length_cons, List.length_singleton,
        List.length_nil]
      omega

theorem emitBatches_dropLast (B : Nat) (hB : 0 < B) :
    ∀ (L batch : List KeyInfo), batch.length < B →
      ∀ b ∈ (emitBatches B batch L).dropLast, b.length = B := by
  intro L
  induction L with
  | nil =>
    intro batch _ b hb
    unfold emitBatches at hb
    by_cases h : batch = []
    · rw [if_pos h] at hb
      simp at hb
    · rw [if_neg h] at hb
      simp [List.dropLast_single] at hb
  | cons d ds ih =>
    intro batch hlt b hb
    unfold emitBatches at hb
    by_cases hB2 : B ≤ (batch ++ [d]).length
    · rw [if_pos hB2] at hb
      by_cases hds : emitBatches B [] ds = []
      · rw [hds] at hb
        simp [List.dropLast_single] at hb
      · rw [dropLast_cons_ne _ hds] at hb
        rcases List.mem_cons.1 hb with h1 | h1
        · subst h1
          simp at hB2 ⊢
          omega
        · exact ih [] (by simpa using hB) b h1
    · rw [if_neg hB2] at hb
      have hB2' : batch.length + 1 < B := by
        simp at hB2
        omega
      exact ih (batch ++ [d]) (by simpa using hB2') b hb

theorem emitBatches_getLast (B : Nat) (hB : 0 < B) :
    ∀ (L batch : List KeyInfo), batch.length < B →
      ∀ last, (emitBatches B batch L).getLast? = some last →
        last.length = if (batch.length + L.length) % B = 0 then B
          else (batch.length + L.length) % B := by
  intro L
  induction L with
  | nil =>
    intro batch hlt last hlast
    unfold emitBatches at hlast
    by_cases h : batch = []
    · rw [if_pos h] at hlast
      simp at hlast
    · rw [if_neg h, List.getLast?_singleton] at hlast
      injection hlast with hlast
      subst hlast
      have hpos : 0 < batch.length := List.length_pos.2 h
      have h0 : (batch.length + List.length ([] : List KeyInfo)) % B =
          batch.length := by
        rw [List.length_nil, Nat.add_zero]
        exact Nat.mod_eq_of_lt hlt
      rw [h0, if_neg (by omega)]
  | cons d ds ih =>
    intro batch hlt last hlast
    unfold emitBatches at hlast
    by_cases hB2 : B ≤ (batch ++ [d]).length
    · rw [if_pos hB2] at hlast
      have hBeq : batch.length + 1 = B := by
        simp at hB2
        omega
      by_cases hds : ds = []
      · subst hds
        have hnil : emitBatches B [] ([] : List KeyInfo) = [] := rfl
        rw [hnil, List.getLast?_singleton] at hlast
        injection hlast with hlast
        subst hlast
        have hmod : (batch.length + List.length [d]) % B = 0 := by
          rw [List.length_singleton]
          rw [hBeq]
          exact Nat.mod_self B
        rw [hmod, if_pos rfl]
        rw [List.length_append, List.length_singleton]
        omega
      · have hne2 : emitBatches B [] ds ≠ [] :=
          emitBatches_ne_nil B ds [] (.inr hds)
        rw [getLast?_cons_ne _ hne2] at hlast
        have := ih [] (by simpa using hB) last hlast
        have hmod : (batch.length + (d :: ds).length) % B =
            (List.length ([] : List KeyInfo) + ds.length) % B := by
          rw [List.length_cons, List.length_nil, Nat.zero_add]
          have h2 : batch.length + (ds.length + 1) = ds.length + B := by omega
          rw [h2, Nat.add_mod_right]
        rw [hmod]
        exact this
    · rw [if_neg hB2] at hlast
      have hB2' : batch.length + 1 < B := by
        simp at hB2
        omega
      have := ih (batch ++ [d]) (by simpa using hB2') last hlast
      have hmod : (batch ++ [d]).length + ds.length =
          batch.length + (d :: ds).length := by
        rw [List.length_append, List.length_singleton, List.length_cons]
        omega
      rw [hmod] at this
      exact this

/-- C7 — Batch-size contract: for a container whose enumeration yields its
objects without error and a positive batch size B, `list_s3_keys` emits
exactly `ceil(N/B)` batches, each of size B except possibly the last, whose
size is `N mod B` (or B when B divides N), and their concatenation is the
descriptor sequence in listing order. -/
theorem list_s3_keys_batch_size_contract (name : String)
    (objs : List S3Object) (B : Nat) (hB : 0 < B) :
    (list_s3_keys [⟨name, objs, true⟩] B).length =
      (objs.length + (B - 1)) / B ∧
    (∀ b ∈ (list_s3_keys [⟨name, objs, true⟩] B).dropLast, b.length = B) ∧
    (∀ last, (list_s3_keys [⟨name, objs, true⟩] B).getLast? = some last →
      last.length = if objs.length % B = 0 then B else objs.length % B) ∧
    (list_s3_keys [⟨name, objs, true⟩] B).flatten =
      objs.map (descOf name) := by
  have hsingle : list_s3_keys [⟨name, objs, true⟩] B =
      emitBatches B [] (objs.map (descOf name)) := by
    unfold list_s3_keys processBucket
    simp
  have hlen : (objs.map (descOf name)).length = objs.length :=
    List.length_map _ _
  rw [hsingle]
  refine ⟨?_, ?_, ?_, ?_⟩
  · rw [emitBatches_length B hB _ [] (by simpa using hB)]
    rw [List.length_nil, hlen, Nat.zero_add]
  · intro b hb
    exact emitBatches_dropLast B hB _ [] (by simpa using hB) b hb
  · intro last hlast
    have := emitBatches_getLast B hB _ [] (by simpa using hB) last hlast
    rw [List.length_nil, hlen, Nat.zero_add] at this
    exact this
  · rw [emitBatches_flatten]
    simp

theorem list_s3_keys_batch_size_contract_witness :
    (list_s3_keys [⟨"bk", [⟨"k1", "t"⟩, ⟨"k2", "t"⟩, ⟨"k3", "t"⟩,
        ⟨"k4", "t"⟩, ⟨"k5", "t"⟩], true⟩] 2).length =
      (([⟨"k1", "t"⟩, ⟨"k2", "t"⟩, ⟨"k3", "t"⟩, ⟨"k4", "t"⟩,
        ⟨"k5", "t"⟩] : List S3Object).length + (2 - 1)) / 2 ∧
    (∀ b ∈ (list_s3_keys [⟨"bk", [⟨"k1", "t"⟩, ⟨"k2", "t"⟩, ⟨"k3", "t"⟩,
        ⟨"k4", "t"⟩, ⟨"k5", "t"⟩], true⟩] 2).dropLast, b.length = 2) ∧
    (∀ last, (list_s3_keys [⟨"bk", [⟨"k1", "t"⟩, ⟨"k2", "t"⟩, ⟨"k3", "t"⟩,
        ⟨"k4", "t"⟩, ⟨"k5", "t"⟩], true⟩] 2).getLast? = some last →
      last.length = if ([⟨"k1", "t"⟩, ⟨"k2", "t"⟩, ⟨"k3", "t"⟩, ⟨"k4", "t"⟩,
        ⟨"k5", "t"⟩] : List S3Object).length % 2 = 0 then 2
        else ([⟨"k1", "t"⟩, ⟨"k2", "t"⟩, ⟨"k3", "t"⟩, ⟨"k4", "t"⟩,
          ⟨"k5", "t"⟩] : List S3Object).length % 2) ∧
    (list_s3_keys [⟨"bk", [⟨"k1", "t"⟩, ⟨"k2", "t"⟩, ⟨"k3", "t"⟩,
        ⟨"k4", "t"⟩, ⟨"k5", "t"⟩], true⟩] 2).flatten =
      ([⟨"k1", "t"⟩, ⟨"k2", "t"⟩, ⟨"k3", "t"⟩, ⟨"k4", "t"⟩,
        ⟨"k5", "t"⟩] : List S3Object).map (descOf "bk") :=
  list_s3_keys_batch_size_contract "bk"
    [⟨"k1", "t"⟩, ⟨"k2", "t"⟩, ⟨"k3", "t"⟩, ⟨"k4", "t"⟩, ⟨"k5", "t"⟩] 2
    (by decide)

/-- C8 — Per-container failure recovery: when one container's enumeration
raises mid-pagination, the descriptors already obtained for it are still
emitted (the buffered remainder as a final short batch), the error is not
raised to the caller (the embedding of the generator is a total function),
and the remaining containers are processed exactly as they would be
otherwise; only the failed container's un-listed descriptors are lost. -/
theorem list_s3_keys_error_recovery (pre post : List BucketListing)
    (b : BucketListing) (B : Nat) (hfail : b.ok = false) :
    list_s3_keys (pre ++ b :: post) B =
      list_s3_keys pre B ++ processBucket B b ++ list_s3_keys post B ∧
    (processBucket B b).flatten = b.objs.map (descOf b.name) := by
  constructor
  · unfold list_s3_keys
    rw [List.map_append, List.flatten_append, List.map_cons,
      List.flatten_cons, List.append_assoc]
  · unfold processBucket
    rw [emitBatches_flatten]
    simp

theorem list_s3_keys_error_recovery_witness :
    list_s3_keys ([⟨"b1", [⟨"k1", "t"⟩], true⟩] ++
        ⟨"b2", [⟨"k2", "t"⟩], false⟩ :: [⟨"b3", [⟨"k3", "t"⟩], true⟩]) 2 =
      list_s3_keys [⟨"b1", [⟨"k1", "t"⟩], true⟩] 2 ++
        processBucket 2 ⟨"b2", [⟨"k2", "t"⟩], false⟩ ++
        list_s3_keys [⟨"b3", [⟨"k3", "t"⟩], true⟩] 2 ∧
    (processBucket 2 (⟨"b2", [⟨"k2", "t"⟩], false⟩ : BucketListing)).flatten =
      ([⟨"k2", "t"⟩] : List S3Object).map (descOf "b2") :=
  list_s3_keys_error_recovery [⟨"b1", [⟨"k1", "t"⟩], true⟩]
    [⟨"b3", [⟨"k3", "t"⟩], true⟩] ⟨"b2", [⟨"k2", "t"⟩], false⟩ 2 (by decide)

/-! ### Search: SQLite LIKE versus plain substring containment -/

theorem beginsWith_nil (s : List Char) : beginsWith [] s = true := by
  cases s <;> rfl

theorem nil_mem_tails {α : Type} (l : List α) : [] ∈ l.tails := by
  induction l with
  | nil => simp
  | cons a as ih =>
    rw [List.tails_cons]
    exact List.mem_cons_of_mem _ ih

theorem likeMatch_pct (ps : List Char) (s : List Char) :
    likeMatch ('%' :: ps) s = s.tails.any (fun t => likeMatch ps t) := by
  conv_lhs => unfold likeMatch
  rw [if_pos rfl]

theorem likeMatch_cons_nil {p : Char} (ps : List Char) (hp : p ≠ '%') :
    likeMatch (p :: ps) [] = false := by
  conv_lhs => unfold likeMatch
  rw [if_neg hp]

theorem likeMatch_cons_cons {p : Char} (ps : List Char) (hp : p ≠ '%')
    (c : Char) (cs : List Char) :
    likeMatch (p :: ps) (c :: cs) =
      ((p == '_' || likeFold p == likeFold c) && likeMatch ps cs) := by
  conv_lhs => unfold likeMatch
  rw [if_neg hp]

theorem likeMatch_append_pct (w : List Char) :
    ∀ s : List Char, (∀ c ∈ w, c ≠ '%' ∧ c ≠ '_') →
      likeMatch (w ++ ['%']) s =
        beginsWith (w.map likeFold) (s.map likeFold) := by
  induction w with
  | nil =>
    intro s _
    show likeMatch ('%' :: []) s = true
    rw [likeMatch_pct, List.any_eq_true]
    exact ⟨[], nil_mem_tails s, rfl⟩
  | cons p ps ih =>
    intro s hw
    have hp := hw p (List.mem_cons_self p ps)
    cases s with
    | nil =>
      show likeMatch (p :: (ps ++ ['%'])) [] = _
      rw [likeMatch_cons_nil _ hp.1]
      rfl
    | cons c cs =>
      show likeMatch (p :: (ps ++ ['%'])) (c :: cs) = _
      rw [likeMatch_cons_cons _ hp.1 c cs,
        show (p == '_') = false from beq_eq_false_iff_ne.2 hp.2,
        Bool.false_or]
      show _ = ((likeFold p == likeFold c) &&
        beginsWith (ps.map likeFold) (cs.map likeFold))
      rw [ih cs (fun c2 hc2 => hw c2 (List.mem_cons_of_mem _ hc2))]

theorem tails_map {α β : Type} (f : α → β) (l : List α) :
    (l.map f).tails = l.tails.map (List.map f) := by
  induction l with
  | nil => rfl
  | cons a as ih => simp [List.tails_cons, ih]

theorem any_map_general {α β : Type} (f : α → β) (l : List α) (p : β → Bool) :
    (l.map f).any p = l.any (fun x => p (f x)) := by
  induction l with
  | nil => rfl
  | cons a as ih => rw [List.map_cons, List.any_cons, List.any_cons, ih]

theorem likeMatch_pattern_substring (w : List Char)
    (hw : ∀ c ∈ w, c ≠ '%' ∧ c ≠ '_') (s : List Char) :
    likeMatch ('%' :: (w ++ ['%'])) s =
      substringOf (w.map likeFold) (s.map likeFold) := by
  rw [likeMatch_pct]
  unfold substringOf
  rw [tails_map, any_map_general]
  congr 1
  funext t
  exact likeMatch_append_pct w t hw

/-- C6 counterexample: `search_keys` does not return exactly the rows whose
key contains the query as a substring — with the store holding key `"ABC"`,
searching `"abc"` returns that row although `"abc"` is not a substring of
`"ABC"` (SQLite's default `LIKE` is ASCII-case-insensitive). -/
theorem search_keys_substring_counterexample :
    search_keys (some [⟨"b", "ABC", "t"⟩]) "abc" = [("b", "ABC", "t")] ∧
    substringOf "abc".data "ABC".data = false := by
  constructor
  · decide
  · decide

/-- C6 amended — Search semantics: for every wildcard-free query (no `%`
or `_`), `search_keys` returns exactly the stored rows whose ASCII-folded
key contains the ASCII-folded query as a substring — SQLite `LIKE`
case-insensitive matching anywhere in the key, against the key field only —
and on a never-created store the search returns the empty sequence rather
than erroring. -/
theorem search_keys_like_semantics (db : Option Store) (q : String)
    (hw : noWildcards q) :
    search_keys db q =
      ((setup_database db).filter (fun r =>
        substringOf (q.data.map likeFold) (r.key.data.map likeFold))).map
        rowTuple ∧
    search_keys none q = [] := by
  constructor
  · unfold search_keys likePattern
    show (List.map rowTuple (List.filter
        (fun r => likeMatch ('%' :: (q.data ++ ['%'])) r.key.data)
        (setup_database db))) = _
    congr 1
    apply List.filter_congr
    intro r _
    exact likeMatch_pattern_substring q.data hw r.key.data
  · rfl

theorem search_keys_like_semantics_witness :
    search_keys (some demoSearchStore) "folder1" =
      ((setup_database (some demoSearchStore)).filter (fun r =>
        substringOf ("folder1".data.map likeFold)
          (r.key.data.map likeFold))).map rowTuple ∧
    search_keys none "folder1" = [] :=
  search_keys_like_semantics (some demoSearchStore) "folder1" (by decide)

end S3Index
